import Mathlib

/-!
Shallow embedding of the gittuf TUI console (package `tui`):
`internal/cmd/tui/update.go` together with the model/view files of the same
package.  The external Rule Store Adapter (`repoAddRule`, `repoUpdateRule`,
`repoRemoveRule`, `repoReorderRules`, `repoAddGlobalRule`,
`repoUpdateGlobalRule`, `repoRemoveGlobalRule`, `getCurrRules`,
`getGlobalRules`) is parameterised as a `Store` record of response
functions; every call the state machine makes is additionally recorded in
an explicit effect list so that theorems can speak about which store
operations an event triggered.  The bubbles `list.Model` and
`textinput.Model` components are modelled by their observable state
(items/cursor index, respectively value/focused/char limit); their styling
fields are render-only and omitted.
-/

/-- Mirrors `type rule struct { name, pattern, key string }` of the tui
package (fields as used by `update.go` and `model.go`). -/
structure rule where
  name : String := ""
  pattern : String := ""
  key : String := ""
deriving DecidableEq, Repr

/-- Mirrors `type globalRule struct` with fields `ruleName`, `ruleType`,
`rulePatterns`, `threshold` as used by the tui package. -/
structure globalRule where
  ruleName : String := ""
  ruleType : String := ""
  rulePatterns : List String := []
  threshold : Int := 0
deriving DecidableEq, Repr

/-- Mirrors `type screen int` and its nine `iota` constants. -/
inductive screen where
  | screenChoice
  | screenPolicy
  | screenPolicyRules
  | screenPolicyAddRule
  | screenPolicyEditRule
  | screenTrust
  | screenTrustGlobalRules
  | screenTrustAddGlobalRule
  | screenTrustEditGlobalRule
deriving DecidableEq, Repr

open screen

/-- Mirrors `type item struct { title, desc string }`. -/
structure item where
  title : String := ""
  desc : String := ""
deriving DecidableEq, Repr

/-- Observable state of a bubbles `list.Model`: its item sequence and the
cursor index (`Index()`); sizing and styling are render-only. -/
structure listModel where
  items : List item := []
  index : Nat := 0
deriving DecidableEq, Repr

/-- `SelectedItem()` of a bubbles list: the item under the cursor, or
nothing when the index is out of range (the Go code's failed type
assertion on a nil selection). -/
def selectedItem (l : listModel) : Option item :=
  l.items.get? l.index

/-- `SetItems` of a bubbles list: replaces the items, cursor untouched. -/
def setItems (l : listModel) (its : List item) : listModel :=
  { l with items := its }

/-- Navigation behaviour of `list.Model.Update` for the default key map
(`up`/`k` cursor up, `down`/`j` cursor down); other keys leave the list
unchanged.  The component never touches any other model field. -/
def listNavUpdate (l : listModel) (key : String) : listModel :=
  if key = "up" ∨ key = "k" then
    { l with index := l.index - 1 }
  else if key = "down" ∨ key = "j" then
    { l with index := min (l.index + 1) (l.items.length - 1) }
  else l

/-- Observable state of a bubbles `textinput.Model`: placeholder, prompt,
value, focus flag and `CharLimit` (§3 of the design: Input Field; the
model file sets `t.CharLimit = 64` on every form field).  The style fields
are render-only and omitted.  A `charLimit` of 0 means unlimited, as in
bubbles. -/
structure textInput where
  placeholder : String := ""
  prompt : String := ""
  value : String := ""
  focused : Bool := false
  charLimit : Nat := 0
deriving DecidableEq, Repr

/-- `textinput.Model.Focus()`. -/
def tiFocus (t : textInput) : textInput := { t with focused := true }

/-- `textinput.Model.Blur()`. -/
def tiBlur (t : textInput) : textInput := { t with focused := false }

/-- `textinput.Model.SetValue`: the value is truncated to `CharLimit`
runes when a limit is set. -/
def tiSetValue (t : textInput) (s : String) : textInput :=
  if t.charLimit > 0 then
    { t with value := String.mk (s.toList.take t.charLimit) }
  else
    { t with value := s }

/-- Character-entry behaviour of `textinput.Model.Update`: a focused input
appends a printable single-character key to its value; a blurred input
ignores every key.  Editing keys beyond plain insertion are not needed by
any claim and are modelled as no-ops. -/
def tiKeyUpdate (t : textInput) (key : String) : textInput :=
  if t.focused ∧ key.length = 1 ∧
      (t.charLimit = 0 ∨ t.value.toList.length < t.charLimit) then
    { t with value := t.value ++ key }
  else t

/-- Go `strings.Split` on a single-character separator, over the character
list: `Split("", sep) = [""]`, otherwise the groups between separator
occurrences. -/
def splitOnChar (c : Char) : List Char → List (List Char)
  | [] => [[]]
  | x :: xs =>
    if x = c then [] :: splitOnChar c xs
    else
      match splitOnChar c xs with
      | [] => [[x]]
      | g :: gs => (x :: g) :: gs

/-- Go's `unicode.IsSpace`: the Unicode `White_Space` code points
(U+0009-U+000D, space, NEL, NBSP, OGHAM SPACE MARK, the U+2000 range,
LINE/PARAGRAPH SEPARATOR, NNBSP, MMSP, IDEOGRAPHIC SPACE). -/
def goIsSpace (c : Char) : Bool :=
  (9 ≤ c.toNat ∧ c.toNat ≤ 13) ∨ c.toNat = 32 ∨ c.toNat = 0x85 ∨ c.toNat = 0xA0 ∨
  c.toNat = 0x1680 ∨ (0x2000 ≤ c.toNat ∧ c.toNat ≤ 0x200A) ∨
  c.toNat = 0x2028 ∨ c.toNat = 0x2029 ∨ c.toNat = 0x202F ∨ c.toNat = 0x205F ∨
  c.toNat = 0x3000

/-- Go `strings.TrimSpace` over the character list: drop whitespace from
both ends. -/
def goTrim (l : List Char) : List Char :=
  ((l.dropWhile goIsSpace).reverse.dropWhile goIsSpace).reverse

/-- `splitAndTrim` (update.go:368-374): split a comma-separated string and
trim whitespace around every part. -/
def splitAndTrim (s : String) : List String :=
  (splitOnChar ',' s.toList).map (fun g => String.mk (goTrim g))

/-- Go `strings.Join` with a separator, as used by
`initGlobalRuleInputsPrefilled` and `updateGlobalRuleList`. -/
def goJoin (sep : String) : List String → String
  | [] => ""
  | [p] => p
  | p :: ps => p ++ sep ++ goJoin sep ps

/-- The decimal digit characters emitted by `fmt.Sprintf("%d", _)`. -/
def digitChar (n : Nat) : Char :=
  match n with
  | 0 => '0' | 1 => '1' | 2 => '2' | 3 => '3' | 4 => '4'
  | 5 => '5' | 6 => '6' | 7 => '7' | 8 => '8' | 9 => '9'
  | _ => '*'

/-- Decimal digits of a natural number, most significant first. -/
def natDigits (n : Nat) : List Char :=
  if h : n < 10 then [digitChar n]
  else
    have : n / 10 < n := Nat.div_lt_self (by omega) (by omega)
    natDigits (n / 10) ++ [digitChar (n % 10)]

/-- `fmt.Sprintf("%d", i)` for a (64-bit) Go int, over characters. -/
def intRepr (i : Int) : List Char :=
  if i < 0 then '-' :: natDigits i.natAbs else natDigits i.natAbs

/-- `fmt.Sprintf("%d", i)` as a string. -/
def intReprStr (i : Int) : String := String.mk (intRepr i)

/-- Numeric value of a decimal digit character. -/
def digitVal (c : Char) : Nat := c.toNat - 48

/-- Decimal evaluation of a digit-character list, most significant first. -/
def parseDigits (ds : List Char) : Nat :=
  ds.foldl (fun a c => a * 10 + digitVal c) 0

/-- Largest value of Go's 64-bit `int`. -/
def maxI64 : Int := 9223372036854775807

/-- Smallest value of Go's 64-bit `int`. -/
def minI64 : Int := -9223372036854775808

/-- Saturation applied by `strconv.ParseInt` on range overflow. -/
def clampI64 (v : Int) : Int :=
  if v > maxI64 then maxI64 else if v < minI64 then minI64 else v

/-- Syntax phase of Go `strconv.Atoi`: an optional sign followed by a
nonempty run of decimal digits; `none` on a syntax error. -/
def atoiCore (s : String) : Option Int :=
  let p : Int × List Char :=
    match s.toList with
    | c :: r => if c = '+' then (1, r) else if c = '-' then (-1, r) else (1, c :: r)
    | [] => (1, [])
  if p.2.isEmpty ∨ ¬ p.2.all Char.isDigit then none
  else some (p.1 * (parseDigits p.2 : Int))

/-- The integer an ignored-error `v, _ = strconv.Atoi(s)` leaves in `v`:
`0` on a syntax error, the 64-bit-saturated value otherwise. -/
def atoiVal (s : String) : Int :=
  match atoiCore s with
  | none => 0
  | some v => clampI64 v

/-- Whether `strconv.Atoi` succeeds syntactically on `s`. -/
def atoiSyntaxOk (s : String) : Bool :=
  (atoiCore s).isSome

/-- Modelled from the spec: the constant `tuf.GlobalRuleThresholdType` of
the `internal/tuf` package is not under the visible sources; §3 of the
design gives the rule-type enumeration `{threshold, block-force-pushes}`
and the form placeholder in model.go spells the same two literals, so the
threshold-type constant is the string `"threshold"`. -/
def GlobalRuleThresholdType : String := "threshold"

/-- Structure of `model` (model.go): the console state, §3 of the design.
The external handles `repo`, `signer`, `policyName`, `options` and the
cosmetic `cursorMode` carry no state-machine content; the store they feed
is passed explicitly to every transition as a `Store`. -/
structure model where
  screen : screen := screenChoice
  choiceList : listModel := {}
  policyScreenList : listModel := {}
  trustScreenList : listModel := {}
  rules : List rule := []
  ruleList : listModel := {}
  globalRules : List globalRule := []
  globalRuleList : listModel := {}
  inputs : List textInput := []
  focusIndex : Nat := 0
  footer : String := ""
  readOnly : Bool := false
  confirmDelete : Bool := false
  deleteTarget : String := ""
deriving DecidableEq, Repr

/-- The commands a transition can hand back to the bubbletea runtime; the
only one the claims distinguish is `tea.Quit`.  Commands produced by the
delegated bubbles components (blink, pagination…) never quit and are
collapsed into `Cmd.compCmd`. -/
inductive Cmd where
  | none
  | quit
  | compCmd
deriving DecidableEq, Repr

/-- One call made to the external Rule Store Adapter. -/
inductive StoreCall where
  | fetchRules
  | fetchGlobalRules
  | addRule (r : rule) (principals : List String)
  | updateRule (r : rule) (principals : List String)
  | removeRule (r : rule)
  | reorderRules (rs : List rule)
  | addGlobalRule (gr : globalRule)
  | updateGlobalRule (gr : globalRule)
  | removeGlobalRule (gr : globalRule)
deriving DecidableEq, Repr

/-- Responses of the external Rule Store Adapter (§6): fetches yield the
current collections, mutators yield `none` on success or `some err`. -/
structure Store where
  fetchRulesRes : List rule := []
  fetchGlobalRulesRes : List globalRule := []
  addRuleRes : rule → List String → Option String := fun _ _ => Option.none
  updateRuleRes : rule → List String → Option String := fun _ _ => Option.none
  removeRuleRes : rule → Option String := fun _ => Option.none
  reorderRulesRes : List rule → Option String := fun _ => Option.none
  addGlobalRuleRes : globalRule → Option String := fun _ => Option.none
  updateGlobalRuleRes : globalRule → Option String := fun _ => Option.none
  removeGlobalRuleRes : globalRule → Option String := fun _ => Option.none

/-- Result of one transition: the next model, the returned `tea.Cmd`, and
the store calls the transition performed, in order. -/
structure StepResult where
  out : model
  cmd : Cmd
  calls : List StoreCall
deriving Repr

/-- `updateRuleList` (model.go): rebuild the rule list's items from the
canonical rules collection. -/
def updateRuleList (m : model) : model :=
  { m with ruleList := setItems m.ruleList (m.rules.map (fun r =>
      { title := r.name, desc := "Pattern: " ++ r.pattern ++ ", Key: " ++ r.key })) }

/-- `updateGlobalRuleList` (model.go): rebuild the global-rule list's items
from the canonical global-rules collection. -/
def updateGlobalRuleList (m : model) : model :=
  { m with globalRuleList := setItems m.globalRuleList (m.globalRules.map (fun gr =>
      { title := gr.ruleName,
        desc :=
          let d := "Type: " ++ gr.ruleType ++ "\nNamespaces: " ++ goJoin ", " gr.rulePatterns
          if gr.ruleType = GlobalRuleThresholdType then
            d ++ "\nThreshold: " ++ intReprStr gr.threshold
          else d })) }

/-- `refreshRules` (model.go): re-fetch rules from the store and rebuild
the list view. -/
def refreshRules (st : Store) (m : model) : model :=
  updateRuleList { m with rules := st.fetchRulesRes }

/-- `refreshGlobalRules` (model.go): re-fetch global rules from the store
and rebuild the list view. -/
def refreshGlobalRules (st : Store) (m : model) : model :=
  updateGlobalRuleList { m with globalRules := st.fetchGlobalRulesRes }

/-- Mirrors `type inputField struct { placeholder, prompt string }`. -/
structure inputField where
  placeholder : String := ""
  prompt : String := ""
deriving DecidableEq, Repr

/-- Positional worker for `initInputs`: field 0 focused, the rest blurred. -/
def initInputsAux (i : Nat) : List inputField → List textInput
  | [] => []
  | f :: fs =>
    { placeholder := f.placeholder, prompt := f.prompt, value := "",
      focused := i == 0, charLimit := 64 } :: initInputsAux (i + 1) fs

/-- `initInputs` (model.go): fresh text inputs from field definitions. -/
def initInputs (fields : List inputField) : List textInput :=
  initInputsAux 0 fields

/-- `m.inputs[i].SetValue(s)`; the indices used are always in range. -/
def setInputValue (ts : List textInput) (i : Nat) (s : String) : List textInput :=
  ts.set i (tiSetValue (ts.getD i {}) s)

/-- `m.inputs[i].Value()`. -/
def inputVal (m : model) (i : Nat) : String :=
  (m.inputs.getD i {}).value

/-- `initRuleInputs` (model.go): the three-field policy-rule form, focus on
field 0. -/
def initRuleInputs (m : model) : model :=
  { m with
    inputs := initInputs [
      { placeholder := "Enter Rule Name Here", prompt := "Rule Name:" },
      { placeholder := "Enter Pattern Here", prompt := "Pattern:" },
      { placeholder := "Enter Principal IDs Here (comma-separated)", prompt := "Authorize Principal:" }],
    focusIndex := 0 }

/-- `initRuleInputsPrefilled` (model.go): rule form prefilled from an
existing rule. -/
def initRuleInputsPrefilled (m : model) (r : rule) : model :=
  let m1 := initRuleInputs m
  { m1 with inputs :=
      setInputValue (setInputValue (setInputValue m1.inputs 0 r.name) 1 r.pattern) 2 r.key }

/-- `initGlobalRuleInputs` (model.go): the four-field global-rule form,
focus on field 0. -/
def initGlobalRuleInputs (m : model) : model :=
  { m with
    inputs := initInputs [
      { placeholder := "Enter Global Rule Name Here", prompt := "Rule Name:" },
      { placeholder := "Enter Rule Type (threshold|block-force-pushes)", prompt := "Type:" },
      { placeholder := "Enter Namespaces (comma-separated)", prompt := "Namespaces:" },
      { placeholder := "Enter Threshold (if threshold type)", prompt := "Threshold:" }],
    focusIndex := 0 }

/-- `initGlobalRuleInputsPrefilled` (model.go): global-rule form prefilled
from an existing global rule; the threshold field is only set when the
rule type is the threshold type. -/
def initGlobalRuleInputsPrefilled (m : model) (gr : globalRule) : model :=
  let m1 := initGlobalRuleInputs m
  let ins :=
    setInputValue (setInputValue (setInputValue m1.inputs 0 gr.ruleName) 1 gr.ruleType)
      2 (goJoin ", " gr.rulePatterns)
  let ins :=
    if gr.ruleType = GlobalRuleThresholdType then
      setInputValue ins 3 (intReprStr gr.threshold)
    else ins
  { m1 with inputs := ins }

/-- The per-field focus/blur reapplication loop at the end of `cycleFocus`
(update.go:354-364), positionally: the field at `idx` is focused, all
others blurred. -/
def refocusAux (idx i : Nat) : List textInput → List textInput
  | [] => []
  | t :: ts => (if i = idx then tiFocus t else tiBlur t) :: refocusAux idx (i + 1) ts

/-- `cycleFocus` (update.go:338-365): move focus between form fields with
wrap-around.  Note the source clears the footer only in the
backward-from-nonzero branch. -/
def cycleFocus (m : model) (key : String) : model :=
  let m1 :=
    if key = "up" ∨ key = "shift+tab" then
      if m.focusIndex > 0 then
        { m with focusIndex := m.focusIndex - 1, footer := "" }
      else
        { m with focusIndex := m.inputs.length - 1 }
    else
      if m.focusIndex < m.inputs.length - 1 then
        { m with focusIndex := m.focusIndex + 1 }
      else
        { m with focusIndex := 0 }
  { m1 with inputs := refocusAux m1.focusIndex 0 m1.inputs }

/-- The `rule` literal built by `handlePolicyFormSubmit` (update.go:237-241)
from the three form fields. -/
def buildRule (m : model) : rule :=
  { name := inputVal m 0, pattern := inputVal m 1, key := inputVal m 2 }

/-- The `globalRule` literal built by `handleGlobalFormSubmit`
(update.go:274-284): the threshold field is parsed only when the type
field equals the threshold-type constant, ignoring the parse error. -/
def buildGlobalRule (m : model) : globalRule :=
  { ruleName := inputVal m 0,
    ruleType := inputVal m 1,
    rulePatterns := splitAndTrim (inputVal m 2),
    threshold :=
      if inputVal m 1 = GlobalRuleThresholdType then atoiVal (inputVal m 3) else 0 }

/-- The parallel assignment `l[i], l[j] = l[j], l[i]`; out-of-range indices
(which would panic in Go and never occur in reachable states, the rule
list mirroring the rules) leave the list unchanged. -/
def listSwap {α : Type} (l : List α) (i j : Nat) : List α :=
  match l.get? i, l.get? j with
  | some a, some b => (l.set i b).set j a
  | _, _ => l

/-- `handleReorderUp` (update.go:310-321): swap the selected rule with its
predecessor, persist, and keep the swapped in-memory collection whether or
not persistence succeeded (only the footer distinguishes the outcomes). -/
def handleReorderUp (st : Store) (m : model) : StepResult :=
  let i := m.ruleList.index
  if i > 0 then
    let newRules := listSwap m.rules i (i - 1)
    let m1 := { m with rules := newRules }
    match st.reorderRulesRes newRules with
    | some e =>
      ⟨{ m1 with footer := "Error reordering rules: " ++ e }, Cmd.none,
        [StoreCall.reorderRules newRules]⟩
    | Option.none =>
      ⟨{ updateRuleList m1 with footer := "Rules reordered successfully!" }, Cmd.none,
        [StoreCall.reorderRules newRules]⟩
  else ⟨m, Cmd.none, []⟩

/-- `handleReorderDown` (update.go:324-335): swap the selected rule with
its successor, persist, and keep the swapped in-memory collection whether
or not persistence succeeded. -/
def handleReorderDown (st : Store) (m : model) : StepResult :=
  let i := m.ruleList.index
  if i < m.rules.length - 1 then
    let newRules := listSwap m.rules i (i + 1)
    let m1 := { m with rules := newRules }
    match st.reorderRulesRes newRules with
    | some e =>
      ⟨{ m1 with footer := "Error reordering rules: " ++ e }, Cmd.none,
        [StoreCall.reorderRules newRules]⟩
    | Option.none =>
      ⟨{ updateRuleList m1 with footer := "Rules reordered successfully!" }, Cmd.none,
        [StoreCall.reorderRules newRules]⟩
  else ⟨m, Cmd.none, []⟩

/-- `handleEnter` (update.go:109-132): enter on the selection menu
screens. -/
def handleEnter (st : Store) (m : model) : StepResult :=
  match m.screen with
  | screenChoice =>
    match selectedItem m.choiceList with
    | some i =>
      if i.title = "Policy" then ⟨{ m with screen := screenPolicy }, Cmd.none, []⟩
      else if i.title = "Trust" then ⟨{ m with screen := screenTrust }, Cmd.none, []⟩
      else ⟨m, Cmd.none, []⟩
    | Option.none => ⟨m, Cmd.none, []⟩
  | screenPolicy =>
    match selectedItem m.policyScreenList with
    | some _ =>
      ⟨refreshRules st { m with screen := screenPolicyRules }, Cmd.none,
        [StoreCall.fetchRules]⟩
    | Option.none => ⟨m, Cmd.none, []⟩
  | screenTrust =>
    match selectedItem m.trustScreenList with
    | some _ =>
      ⟨refreshGlobalRules st { m with screen := screenTrustGlobalRules }, Cmd.none,
        [StoreCall.fetchGlobalRules]⟩
    | Option.none => ⟨m, Cmd.none, []⟩
  | _ => ⟨m, Cmd.none, []⟩

/-- The trailing per-screen component delegation of `Update`
(update.go:90-103): the active bubbles component consumes the key; no
other model field is touched and no store call is made. -/
def delegate (m : model) (key : String) : StepResult :=
  match m.screen with
  | screenChoice =>
    ⟨{ m with choiceList := listNavUpdate m.choiceList key }, Cmd.compCmd, []⟩
  | screenPolicy =>
    ⟨{ m with policyScreenList := listNavUpdate m.policyScreenList key }, Cmd.compCmd, []⟩
  | screenTrust =>
    ⟨{ m with trustScreenList := listNavUpdate m.trustScreenList key }, Cmd.compCmd, []⟩
  | screenPolicyRules =>
    ⟨{ m with ruleList := listNavUpdate m.ruleList key }, Cmd.compCmd, []⟩
  | screenTrustGlobalRules =>
    ⟨{ m with globalRuleList := listNavUpdate m.globalRuleList key }, Cmd.compCmd, []⟩
  | _ =>
    let ins := m.inputs.set m.focusIndex (tiKeyUpdate (m.inputs.getD m.focusIndex {}) key)
    ⟨{ m with inputs := ins }, Cmd.compCmd, []⟩

/-- `handleRulesListKey` (update.go:136-202): keybindings on the two rule
list screens; in read-only mode, and for every unhandled combination,
the key is delegated to the active list for navigation. -/
def handleRulesListKey (st : Store) (m : model) (key : String) : StepResult :=
  let del : StepResult :=
    if m.screen = screenPolicyRules then
      ⟨{ m with ruleList := listNavUpdate m.ruleList key }, Cmd.compCmd, []⟩
    else
      ⟨{ m with globalRuleList := listNavUpdate m.globalRuleList key }, Cmd.compCmd, []⟩
  if ¬ m.readOnly then
    if key = "a" then
      if m.screen = screenPolicyRules then
        let m1 := initRuleInputs m
        ⟨{ m1 with screen := screenPolicyAddRule }, Cmd.none, []⟩
      else
        let m1 := initGlobalRuleInputs m
        ⟨{ m1 with screen := screenTrustAddGlobalRule }, Cmd.none, []⟩
    else if key = "e" then
      if m.screen = screenPolicyRules then
        match selectedItem m.ruleList with
        | some sel =>
          match m.rules.find? (fun r => r.name = sel.title) with
          | some r =>
            let m1 := initRuleInputsPrefilled m r
            ⟨{ m1 with screen := screenPolicyEditRule }, Cmd.none, []⟩
          | Option.none => del
        | Option.none => del
      else
        match selectedItem m.globalRuleList with
        | some sel =>
          match m.globalRules.find? (fun gr => gr.ruleName = sel.title) with
          | some gr =>
            let m1 := initGlobalRuleInputsPrefilled m gr
            ⟨{ m1 with screen := screenTrustEditGlobalRule }, Cmd.none, []⟩
          | Option.none => del
        | Option.none => del
    else if key = "d" then
      match (if m.screen = screenPolicyRules then selectedItem m.ruleList
             else selectedItem m.globalRuleList) with
      | some sel =>
        ⟨{ m with confirmDelete := true, deleteTarget := sel.title }, Cmd.none, []⟩
      | Option.none => del
    else if key = "u" ∨ key = "k" then
      if m.screen = screenPolicyRules then handleReorderUp st m else del
    else if key = "j" then
      if m.screen = screenPolicyRules then handleReorderDown st m else del
    else del
  else del

/-- `handleDeleteConfirm` (update.go:205-227): the delete-confirmation
overlay removes the target only on exactly `y`, and exits the overlay
unconditionally, clearing the captured target. -/
def handleDeleteConfirm (st : Store) (m : model) (key : String) : StepResult :=
  let finish : model → List StoreCall → StepResult := fun mm cs =>
    ⟨{ mm with confirmDelete := false, deleteTarget := "" }, Cmd.none, cs⟩
  if key = "y" then
    match m.screen with
    | screenPolicyRules =>
      let target : rule := { name := m.deleteTarget }
      match st.removeRuleRes target with
      | some e =>
        finish { m with footer := "Error removing rule: " ++ e }
          [StoreCall.removeRule target]
      | Option.none =>
        finish (refreshRules st { m with footer := "Rule removed successfully!" })
          [StoreCall.removeRule target, StoreCall.fetchRules]
    | screenTrustGlobalRules =>
      let target : globalRule := { ruleName := m.deleteTarget }
      match st.removeGlobalRuleRes target with
      | some e =>
        finish { m with footer := "Error removing global rule: " ++ e }
          [StoreCall.removeGlobalRule target]
      | Option.none =>
        finish (refreshGlobalRules st { m with footer := "Global rule removed!" })
          [StoreCall.removeGlobalRule target, StoreCall.fetchGlobalRules]
    | _ => finish m []
  else finish m []

/-- `handlePolicyFormSubmit` (update.go:230-265): enter on the policy
add/edit form; advances focus unless on the last field, else dispatches
Add or Update to the store. -/
def handlePolicyFormSubmit (st : Store) (m : model) : StepResult :=
  if m.focusIndex < m.inputs.length - 1 then
    ⟨cycleFocus m "tab", Cmd.none, []⟩
  else
    let r := buildRule m
    let authorizedKeys := splitAndTrim (inputVal m 2)
    let res : Option String × List StoreCall :=
      match m.screen with
      | screenPolicyAddRule =>
        (st.addRuleRes r authorizedKeys, [StoreCall.addRule r authorizedKeys])
      | screenPolicyEditRule =>
        (st.updateRuleRes r authorizedKeys, [StoreCall.updateRule r authorizedKeys])
      | _ => (Option.none, [])
    match res with
    | (some e, cs) => ⟨{ m with footer := "Error: " ++ e }, Cmd.none, cs⟩
    | (Option.none, cs) =>
      let m1 := refreshRules st m
      let m2 :=
        if m.screen = screenPolicyAddRule then
          { m1 with footer := "Rule added successfully!" }
        else
          { m1 with footer := "Rule updated successfully!" }
      ⟨{ m2 with screen := screenPolicyRules }, Cmd.none, cs ++ [StoreCall.fetchRules]⟩

/-- `handleGlobalFormSubmit` (update.go:268-307): enter on the global-rule
add/edit form; advances focus unless on the last field, else dispatches
Add or Update of the built global rule to the store. -/
def handleGlobalFormSubmit (st : Store) (m : model) : StepResult :=
  if m.focusIndex < m.inputs.length - 1 then
    ⟨cycleFocus m "tab", Cmd.none, []⟩
  else
    let gr := buildGlobalRule m
    let res : Option String × List StoreCall :=
      match m.screen with
      | screenTrustAddGlobalRule =>
        (st.addGlobalRuleRes gr, [StoreCall.addGlobalRule gr])
      | screenTrustEditGlobalRule =>
        (st.updateGlobalRuleRes gr, [StoreCall.updateGlobalRule gr])
      | _ => (Option.none, [])
    match res with
    | (some e, cs) => ⟨{ m with footer := "Error: " ++ e }, Cmd.none, cs⟩
    | (Option.none, cs) =>
      let m1 := refreshGlobalRules st m
      let m2 :=
        if m.screen = screenTrustAddGlobalRule then
          { m1 with footer := "Global rule added!" }
        else
          { m1 with footer := "Global rule updated!" }
      ⟨{ m2 with screen := screenTrustGlobalRules }, Cmd.none,
        cs ++ [StoreCall.fetchGlobalRules]⟩

/-- The `esc` branch of `Update` (update.go:45-59): clear the footer, then
navigate one level up according to the current screen. -/
def escStep (m : model) : StepResult :=
  let m1 := { m with footer := "" }
  let m2 :=
    match m1.screen with
    | screenPolicy => { m1 with screen := screenChoice }
    | screenTrust => { m1 with screen := screenChoice }
    | screenPolicyRules => { m1 with screen := screenPolicy }
    | screenPolicyAddRule => { m1 with screen := screenPolicyRules }
    | screenPolicyEditRule => { m1 with screen := screenPolicyRules }
    | screenTrustGlobalRules => { m1 with screen := screenTrust }
    | screenTrustAddGlobalRule => { m1 with screen := screenTrustGlobalRules }
    | screenTrustEditGlobalRule => { m1 with screen := screenTrustGlobalRules }
    | screenChoice => m1
  ⟨m2, Cmd.none, []⟩

/-- The screen-specific key dispatch of `Update` (update.go:62-86),
falling through to the component delegation for unhandled keys. -/
def keyDispatch (st : Store) (m : model) (key : String) : StepResult :=
  match m.screen with
  | screenChoice =>
    if key = "enter" then handleEnter st m else delegate m key
  | screenPolicy =>
    if key = "enter" then handleEnter st m else delegate m key
  | screenTrust =>
    if key = "enter" then handleEnter st m else delegate m key
  | screenPolicyRules => handleRulesListKey st m key
  | screenTrustGlobalRules => handleRulesListKey st m key
  | screenPolicyAddRule =>
    if key = "enter" then handlePolicyFormSubmit st m
    else if key = "tab" ∨ key = "shift+tab" ∨ key = "up" ∨ key = "down" then
      ⟨cycleFocus m key, Cmd.none, []⟩
    else delegate m key
  | screenPolicyEditRule =>
    if key = "enter" then handlePolicyFormSubmit st m
    else if key = "tab" ∨ key = "shift+tab" ∨ key = "up" ∨ key = "down" then
      ⟨cycleFocus m key, Cmd.none, []⟩
    else delegate m key
  | screenTrustAddGlobalRule =>
    if key = "enter" then handleGlobalFormSubmit st m
    else if key = "tab" ∨ key = "shift+tab" ∨ key = "up" ∨ key = "down" then
      ⟨cycleFocus m key, Cmd.none, []⟩
    else delegate m key
  | screenTrustEditGlobalRule =>
    if key = "enter" then handleGlobalFormSubmit st m
    else if key = "tab" ∨ key = "shift+tab" ∨ key = "up" ∨ key = "down" then
      ⟨cycleFocus m key, Cmd.none, []⟩
    else delegate m key

/-- `Update` on a key event (update.go:17-106): the delete-confirmation
overlay intercepts every key first; then the global quit/back handlers
(`ctrl+c`, `q` outside form screens, `esc`); then the screen-specific
handlers; every unhandled key is delegated to the active component. -/
def update (st : Store) (m : model) (key : String) : StepResult :=
  if m.confirmDelete then
    handleDeleteConfirm st m key
  else if key = "ctrl+c" then
    ⟨m, Cmd.quit, []⟩
  else if key = "q" ∧ m.screen ≠ screenPolicyAddRule ∧ m.screen ≠ screenPolicyEditRule ∧
      m.screen ≠ screenTrustAddGlobalRule ∧ m.screen ≠ screenTrustEditGlobalRule then
    ⟨m, Cmd.quit, []⟩
  else if key = "esc" then
    escStep m
  else
    keyDispatch st m key

/-- Classifies the store calls that remove an entity. -/
def isRemoveCall : StoreCall → Bool
  | StoreCall.removeRule _ => true
  | StoreCall.removeGlobalRule _ => true
  | _ => false

/-- Classifies the store calls that mutate the store (everything except
the two fetches); the footer-setting CRUD/reorder outcomes are exactly
the transitions that make such a call. -/
def isMutatingCall : StoreCall → Bool
  | StoreCall.fetchRules => false
  | StoreCall.fetchGlobalRules => false
  | _ => true

/-- `n` successive forward (`tab`) `cycleFocus` steps. -/
def cycleForwardN : Nat → model → model
  | 0, m => m
  | n + 1, m => cycleForwardN n (cycleFocus m "tab")

/-- The model state produced by the rule list's `e` handler for an existing
rule: form prefilled, edit screen active. -/
def ruleEditStart (m : model) (r : rule) : model :=
  { initRuleInputsPrefilled m r with screen := screenPolicyEditRule }

/-- The model state produced by the global-rule list's `e` handler for an
existing global rule: form prefilled, edit screen active. -/
def globalEditStart (m : model) (gr : globalRule) : model :=
  { initGlobalRuleInputsPrefilled m gr with screen := screenTrustEditGlobalRule }

/-- A store on which every operation succeeds and the fetches return
nothing. -/
def okStore : Store := {}

/-- A store on which every mutating operation fails. -/
def failingStore : Store :=
  { addRuleRes := fun _ _ => some "boom",
    updateRuleRes := fun _ _ => some "boom",
    removeRuleRes := fun _ => some "boom",
    reorderRulesRes := fun _ => some "boom",
    addGlobalRuleRes := fun _ => some "boom",
    updateGlobalRuleRes := fun _ => some "boom",
    removeGlobalRuleRes := fun _ => some "boom" }

/-- Sample rule from the scenario of §8 of the design. -/
def ruleR1 : rule := { name := "R1", pattern := "refs/heads/main", key := "alice" }

/-- A second sample rule. -/
def ruleB1 : rule := { name := "B1", pattern := "refs/heads/b", key := "bob" }

/-- The list item `updateRuleList` derives from a rule. -/
def itemOfRule (r : rule) : item :=
  { title := r.name, desc := "Pattern: " ++ r.pattern ++ ", Key: " ++ r.key }

/-- Rules screen showing two rules with the cursor on the second. -/
def mReorder : model :=
  { screen := screenPolicyRules,
    rules := [ruleR1, ruleB1],
    ruleList := { items := [itemOfRule ruleR1, itemOfRule ruleB1], index := 1 } }

/-- Add-rule form screen with focus on the middle field and a non-empty
footer left by an earlier operation. -/
def mForm : model :=
  { initRuleInputs {} with screen := screenPolicyAddRule, focusIndex := 1, footer := "saved" }

/-- Rules screen with the delete-confirmation overlay active. -/
def mOverlay : model :=
  { mReorder with confirmDelete := true, deleteTarget := "R1" }

/-- Add-rule form screen with focus on the first field. -/
def mFormStart : model :=
  { initRuleInputs {} with screen := screenPolicyAddRule }

/-- The rules screen of `mReorder` in read-only mode. -/
def mReadOnly : model :=
  { mReorder with readOnly := true }

/-- A global rule one of whose namespace patterns contains a comma. -/
def grComma : globalRule :=
  { ruleName := "G1", ruleType := "block-force-pushes", rulePatterns := ["a,b"] }

/-- A global rule with comma-free, trimmed namespace patterns. -/
def grGood : globalRule :=
  { ruleName := "G1", ruleType := "threshold", rulePatterns := ["refs/a", "refs/b"],
    threshold := 2 }

/-- `globalEditStart` for `grComma` after two of its four enters. -/
def mGrComma2 : model :=
  (update okStore (update okStore (globalEditStart mReorder grComma) "enter").out "enter").out

/-- `globalEditStart` for `grComma` after three of its four enters. -/
def mGrComma3 : model :=
  (update okStore mGrComma2 "enter").out

/-- Add-global-rule form on its last field with type `threshold` and
threshold text `2` (scenario of §8). -/
def mThresholdForm : model :=
  { screen := screenTrustAddGlobalRule,
    inputs := [{ value := "G2" }, { value := "threshold" }, { value := "refs/x" },
               { value := "2", focused := true }],
    focusIndex := 3 }

/-- Add-rule form on its last field with an empty principals field. -/
def mEmptyPrincipals : model :=
  { screen := screenPolicyAddRule,
    inputs := [{ value := "R9" }, { value := "refs/y" }, { value := "", focused := true }],
    focusIndex := 2 }

theorem refocusAux_length (idx : Nat) : ∀ (i : Nat) (ts : List textInput),
    (refocusAux idx i ts).length = ts.length := by
  intro i ts
  induction ts generalizing i with
  | nil => rfl
  | cons t ts ih => simp [refocusAux, ih]

theorem cycleFocus_inputs_length (m : model) (key : String) :
    (cycleFocus m key).inputs.length = m.inputs.length := by
  simp only [cycleFocus]
  split_ifs <;> simp [refocusAux_length]

theorem cycleFocus_tab_focusIndex (m : model) (h : m.focusIndex < m.inputs.length) :
    (cycleFocus m "tab").focusIndex = (m.focusIndex + 1) % m.inputs.length := by
  simp only [cycleFocus]
  have htab : ¬ (("tab" : String) = "up" ∨ ("tab" : String) = "shift+tab") := by decide
  rw [if_neg htab]
  by_cases h2 : m.focusIndex < m.inputs.length - 1
  · rw [if_pos h2]
    have : m.focusIndex + 1 < m.inputs.length := by omega
    simp [Nat.mod_eq_of_lt this]
  · rw [if_neg h2]
    have : m.focusIndex + 1 = m.inputs.length := by omega
    simp [this]

theorem cycleForwardN_focusIndex : ∀ (n : Nat) (m : model),
    0 < m.inputs.length → m.focusIndex < m.inputs.length →
    (cycleForwardN n m).focusIndex = (m.focusIndex + n) % m.inputs.length := by
  intro n
  induction n with
  | zero =>
    intro m _ hf
    simp [cycleForwardN, Nat.mod_eq_of_lt hf]
  | succ n ih =>
    intro m hpos hf
    have hlen := cycleFocus_inputs_length m "tab"
    have hstep := cycleFocus_tab_focusIndex m hf
    have h1 : (cycleFocus m "tab").focusIndex < (cycleFocus m "tab").inputs.length := by
      rw [hlen, hstep]
      exact Nat.mod_lt _ hpos
    have := ih (cycleFocus m "tab") (by rw [hlen]; exact hpos) h1
    simp only [cycleForwardN]
    rw [this, hlen, hstep, Nat.mod_add_mod]
    congr 1
    omega

theorem splitOnChar_ne_nil (c : Char) : ∀ l : List Char, splitOnChar c l ≠ [] := by
  intro l
  induction l with
  | nil => simp [splitOnChar]
  | cons x xs ih =>
    simp only [splitOnChar]
    split_ifs with h
    · simp
    · rcases List.exists_cons_of_ne_nil ih with ⟨g, gs, hg⟩
      simp [hg]

theorem splitOnChar_of_not_mem (c : Char) :
    ∀ l : List Char, (∀ x ∈ l, x ≠ c) → splitOnChar c l = [l] := by
  intro l
  induction l with
  | nil => intro _; rfl
  | cons x xs ih =>
    intro h
    have hx : x ≠ c := h x (by simp)
    have := ih (fun y hy => h y (by simp [hy]))
    simp [splitOnChar, hx, this]

theorem splitOnChar_append (c : Char) :
    ∀ xs ys : List Char, (∀ x ∈ xs, x ≠ c) →
    splitOnChar c (xs ++ ys) =
      (xs ++ (splitOnChar c ys).headI) :: (splitOnChar c ys).tail := by
  intro xs
  induction xs with
  | nil =>
    intro ys _
    rcases List.exists_cons_of_ne_nil (splitOnChar_ne_nil c ys) with ⟨g, gs, hg⟩
    simp [hg]
  | cons x xs ih =>
    intro ys h
    have hx : x ≠ c := h x (by simp)
    have hih := ih ys (fun y hy => h y (by simp [hy]))
    simp only [List.cons_append, splitOnChar, if_neg hx, List.append_eq]
    rw [hih]

theorem goTrim_space_cons (c : Char) (l : List Char) (h : goIsSpace c = true) :
    goTrim (c :: l) = goTrim l := by
  simp [goTrim, List.dropWhile_cons, h]

theorem strToList_append (s t : String) : (s ++ t).toList = s.toList ++ t.toList := by
  cases s; cases t; rfl

theorem splitTrim_space_cons (l : List Char) :
    (splitOnChar ',' (' ' :: l)).map (fun g => String.mk (goTrim g)) =
      (splitOnChar ',' l).map (fun g => String.mk (goTrim g)) := by
  rcases List.exists_cons_of_ne_nil (splitOnChar_ne_nil ',' l) with ⟨g, gs, hg⟩
  have hsp : (' ' : Char) ≠ ',' := by decide
  simp [splitOnChar, hsp, hg, goTrim_space_cons ' ' g (by decide)]

theorem splitAndTrim_goJoin : ∀ ps : List String, ps ≠ [] →
    (∀ p ∈ ps, (∀ ch ∈ p.toList, ch ≠ ',') ∧ goTrim p.toList = p.toList) →
    splitAndTrim (goJoin ", " ps) = ps := by
  intro ps
  induction ps with
  | nil => intro h; exact absurd rfl h
  | cons p ps ih =>
    intro _ hcond
    rcases hcond p (by simp) with ⟨hpc, hpt⟩
    cases ps with
    | nil =>
      simp only [goJoin, splitAndTrim]
      rw [splitOnChar_of_not_mem ',' p.toList hpc]
      simp only [List.map_cons, List.map_nil]
      rw [hpt]
      rfl
    | cons q qs =>
      have hih := ih (by simp) (fun x hx => hcond x (by simp [hx]))
      simp only [goJoin, splitAndTrim] at hih ⊢
      rw [strToList_append, strToList_append]
      have hcomma : (", " : String).toList = [',', ' '] := rfl
      rw [hcomma, List.append_assoc]
      rw [splitOnChar_append ',' p.toList _ hpc]
      have hsplit :
          splitOnChar ',' ([',', ' '] ++ (goJoin ", " (q :: qs)).toList) =
            [] :: splitOnChar ',' (' ' :: (goJoin ", " (q :: qs)).toList) := by
        simp [splitOnChar]
      rw [hsplit]
      simp only [List.headI_cons, List.tail_cons, List.append_nil, List.map_cons]
      rw [hpt]
      have := splitTrim_space_cons ((goJoin ", " (q :: qs)).toList)
      rw [this, hih]
      rfl

theorem digitChar_isDigit : ∀ d, d < 10 → (digitChar d).isDigit = true := by decide

theorem digitVal_digitChar : ∀ d, d < 10 → digitVal (digitChar d) = d := by decide

theorem natDigits_all_digits (n : Nat) : (natDigits n).all Char.isDigit = true := by
  induction n using Nat.strong_induction_on with
  | _ n ih =>
    rw [natDigits]
    split_ifs with h
    · simp [digitChar_isDigit n h]
    · have hlt : n / 10 < n := Nat.div_lt_self (by omega) (by omega)
      have h10 : n % 10 < 10 := Nat.mod_lt _ (by omega)
      simp [List.all_append, ih _ hlt, digitChar_isDigit _ h10]

theorem natDigits_ne_nil (n : Nat) : natDigits n ≠ [] := by
  rw [natDigits]
  split_ifs with h
  · simp
  · simp

theorem parseDigits_append (l : List Char) (c : Char) :
    parseDigits (l ++ [c]) = parseDigits l * 10 + digitVal c := by
  simp [parseDigits, List.foldl_append]

theorem parseDigits_natDigits (n : Nat) : parseDigits (natDigits n) = n := by
  induction n using Nat.strong_induction_on with
  | _ n ih =>
    rw [natDigits]
    split_ifs with h
    · simp [parseDigits, digitVal_digitChar n h]
    · have hlt : n / 10 < n := Nat.div_lt_self (by omega) (by omega)
      have h10 : n % 10 < 10 := Nat.mod_lt _ (by omega)
      rw [parseDigits_append, ih _ hlt, digitVal_digitChar _ h10]
      omega

theorem isDigit_ne_sign (c : Char) (h : c.isDigit = true) : c ≠ '+' ∧ c ≠ '-' := by
  constructor
  · intro he; rw [he] at h; exact absurd h (by decide)
  · intro he; rw [he] at h; exact absurd h (by decide)

theorem atoiVal_intReprStr (i : Int) (h1 : minI64 ≤ i) (h2 : i ≤ maxI64) :
    atoiVal (intReprStr i) = i := by
  have hall := natDigits_all_digits i.natAbs
  rcases List.exists_cons_of_ne_nil (natDigits_ne_nil i.natAbs) with ⟨c, cs, hl⟩
  have hcdig : c.isDigit = true := by
    rw [hl] at hall
    simp [List.all_cons] at hall
    exact hall.1
  rcases isDigit_ne_sign c hcdig with ⟨hcp, hcm⟩
  by_cases hneg : i < 0
  · have htl : (intReprStr i).toList = '-' :: natDigits i.natAbs := by
      simp [intReprStr, intRepr, if_pos hneg, String.toList]
    have hval : atoiCore (intReprStr i) = some ((-1) * (parseDigits (natDigits i.natAbs) : Int)) := by
      rw [atoiCore, htl]
      have hmp : ('-' : Char) ≠ '+' := by decide
      simp only [if_neg hmp, if_pos rfl]
      have hne : (natDigits i.natAbs).isEmpty = false := by
        rw [hl]; rfl
      simp [hne, hall]
    rw [atoiVal, hval]
    rw [parseDigits_natDigits]
    have habs : (i.natAbs : Int) = -i := Int.ofNat_natAbs_of_nonpos (by omega)
    rw [habs]
    simp only [clampI64, maxI64, minI64] at *
    split_ifs <;> omega
  · have htl : (intReprStr i).toList = natDigits i.natAbs := by
      simp [intReprStr, intRepr, if_neg hneg, String.toList]
    have hval : atoiCore (intReprStr i) = some (1 * (parseDigits (natDigits i.natAbs) : Int)) := by
      rw [atoiCore, htl, hl]
      simp only [if_neg hcp, if_neg hcm]
      rw [← hl]
      have hne : (natDigits i.natAbs).isEmpty = false := by
        rw [hl]; rfl
      simp [hne, hall]
    rw [atoiVal, hval]
    rw [parseDigits_natDigits]
    have habs : (i.natAbs : Int) = i := Int.natAbs_of_nonneg (by omega)
    rw [habs]
    simp only [clampI64, maxI64, minI64] at *
    split_ifs <;> omega
/-- C3 counterexample: with the delete-confirmation overlay active,
`ctrl+c` does not return the quit command. -/
theorem ctrlC_overlay_counterexample :
    mOverlay.confirmDelete = true ∧ (update okStore mOverlay "ctrl+c").cmd ≠ Cmd.quit := by
  decide

/-- C3 (amended): `ctrl+c` returns the quit command whenever the
delete-confirmation overlay is inactive; while the overlay is active it is
treated as a non-`y` key: no quit, the overlay is merely dismissed. -/
theorem ctrlC_quit_amended (st : Store) (m : model) :
    (m.confirmDelete = false → (update st m "ctrl+c").cmd = Cmd.quit) ∧
    (m.confirmDelete = true →
      (update st m "ctrl+c").cmd = Cmd.none ∧
      (update st m "ctrl+c").out.confirmDelete = false) := by
  constructor
  · intro h
    simp [update, h]
  · intro h
    simp [update, h, handleDeleteConfirm]

/-- C3 witness: the amended theorem applied at concrete states with the
overlay inactive and active. -/
theorem ctrlC_quit_amended_witness :
    (mReorder.confirmDelete = false ∧ (update okStore mReorder "ctrl+c").cmd = Cmd.quit) ∧
    (mOverlay.confirmDelete = true ∧ (update okStore mOverlay "ctrl+c").cmd = Cmd.none ∧
      (update okStore mOverlay "ctrl+c").out.confirmDelete = false) :=
  ⟨⟨by decide, (ctrlC_quit_amended okStore mReorder).1 (by decide)⟩,
   ⟨by decide, (ctrlC_quit_amended okStore mOverlay).2 (by decide)⟩⟩
/-- C4: while the delete-confirmation overlay is active over a rules or
global-rules screen, a remove is dispatched to the store exactly on the
key `y`; on any other key no store call is made and the canonical
collections are unchanged; in every case the overlay is deactivated and
the captured target cleared. -/
theorem deleteConfirm_exact_y (st : Store) (m : model) (key : String)
    (hcd : m.confirmDelete = true)
    (hs : m.screen = screenPolicyRules ∨ m.screen = screenTrustGlobalRules) :
    (key ≠ "y" →
      (update st m key).calls = [] ∧
      (update st m key).out.rules = m.rules ∧
      (update st m key).out.globalRules = m.globalRules) ∧
    (key = "y" → ∃ c ∈ (update st m key).calls, isRemoveCall c = true) ∧
    (update st m key).out.confirmDelete = false ∧
    (update st m key).out.deleteTarget = "" := by
  have hu : update st m key = handleDeleteConfirm st m key := by
    simp [update, hcd]
  rw [hu]
  by_cases hk : key = "y"
  · refine ⟨fun h => absurd hk h, fun _ => ?_, ?_⟩
    · rcases hs with h | h
      · cases hrem : st.removeRuleRes { name := m.deleteTarget } with
        | none => simp [handleDeleteConfirm, hk, h, hrem, isRemoveCall]
        | some e => simp [handleDeleteConfirm, hk, h, hrem, isRemoveCall]
      · cases hrem : st.removeGlobalRuleRes { ruleName := m.deleteTarget } with
        | none => simp [handleDeleteConfirm, hk, h, hrem, isRemoveCall]
        | some e => simp [handleDeleteConfirm, hk, h, hrem, isRemoveCall]
    · rcases hs with h | h
      · cases hrem : st.removeRuleRes { name := m.deleteTarget } with
        | none => simp [handleDeleteConfirm, hk, h, hrem]
        | some e => simp [handleDeleteConfirm, hk, h, hrem]
      · cases hrem : st.removeGlobalRuleRes { ruleName := m.deleteTarget } with
        | none => simp [handleDeleteConfirm, hk, h, hrem]
        | some e => simp [handleDeleteConfirm, hk, h, hrem]
  · simp [handleDeleteConfirm, hk]

/-- C4 witness: the theorem applied at the concrete overlay state for the
cancelling key `x`. -/
theorem deleteConfirm_exact_y_witness :
    (mOverlay.confirmDelete = true ∧ mOverlay.screen = screenPolicyRules) ∧
    ((update okStore mOverlay "x").calls = [] ∧
      (update okStore mOverlay "x").out.rules = mOverlay.rules ∧
      (update okStore mOverlay "x").out.globalRules = mOverlay.globalRules) ∧
    (∃ c ∈ (update okStore mOverlay "y").calls, isRemoveCall c = true) ∧
    (update okStore mOverlay "x").out.confirmDelete = false ∧
    (update okStore mOverlay "x").out.deleteTarget = "" := by
  refine ⟨⟨by decide, by decide⟩, ?_, ?_, ?_, ?_⟩
  · exact (deleteConfirm_exact_y okStore mOverlay "x" (by decide) (Or.inl (by decide))).1
      (by decide)
  · exact (deleteConfirm_exact_y okStore mOverlay "y" (by decide) (Or.inl (by decide))).2.1 rfl
  · exact (deleteConfirm_exact_y okStore mOverlay "x" (by decide) (Or.inl (by decide))).2.2.1
  · exact (deleteConfirm_exact_y okStore mOverlay "x" (by decide) (Or.inl (by decide))).2.2.2
/-- C5: in read-only mode, each of the keys `a`, `e`, `d`, `u`, `k`, `j`
on the rules or global-rules screen leaves the canonical collections
unchanged, makes no store call, stays on the same screen (in particular
never reaches a form screen), and only the active list's cursor may
move. -/
theorem readOnly_no_mutation (st : Store) (m : model) (key : String)
    (hro : m.readOnly = true) (hcd : m.confirmDelete = false)
    (hs : m.screen = screenPolicyRules ∨ m.screen = screenTrustGlobalRules)
    (hk : key = "a" ∨ key = "e" ∨ key = "d" ∨ key = "u" ∨ key = "k" ∨ key = "j") :
    (update st m key).out.rules = m.rules ∧
    (update st m key).out.globalRules = m.globalRules ∧
    (update st m key).calls = [] ∧
    (update st m key).out.screen = m.screen ∧
    (update st m key).out.screen ≠ screenPolicyAddRule ∧
    (update st m key).out.screen ≠ screenPolicyEditRule ∧
    (update st m key).out.screen ≠ screenTrustAddGlobalRule ∧
    (update st m key).out.screen ≠ screenTrustEditGlobalRule := by
  rcases hs with h | h <;>
    rcases hk with hk | hk | hk | hk | hk | hk <;>
      subst hk <;>
        simp [update, keyDispatch, handleRulesListKey, hcd, h, hro]

/-- C5 witness: the theorem applied at the concrete read-only rules screen
with the key `d`. -/
theorem readOnly_no_mutation_witness :
    (mReadOnly.readOnly = true ∧ mReadOnly.confirmDelete = false ∧
      mReadOnly.screen = screenPolicyRules) ∧
    ((update okStore mReadOnly "d").out.rules = mReadOnly.rules ∧
      (update okStore mReadOnly "d").out.globalRules = mReadOnly.globalRules ∧
      (update okStore mReadOnly "d").calls = [] ∧
      (update okStore mReadOnly "d").out.screen = mReadOnly.screen ∧
      (update okStore mReadOnly "d").out.screen ≠ screenPolicyAddRule ∧
      (update okStore mReadOnly "d").out.screen ≠ screenPolicyEditRule ∧
      (update okStore mReadOnly "d").out.screen ≠ screenTrustAddGlobalRule ∧
      (update okStore mReadOnly "d").out.screen ≠ screenTrustEditGlobalRule) :=
  ⟨⟨by decide, by decide, by decide⟩,
    readOnly_no_mutation okStore mReadOnly "d" (by decide) (by decide)
      (Or.inl (by decide)) (by decide)⟩
/-- C7: on a form screen, Enter with the focus not on the last field only
advances the focus by one (forward cycle), changes no other observable
(screen, footer, canonical collections) and makes no store call; any store
dispatch on Enter therefore happens only from the last field. -/
theorem submit_advances_focus (st : Store) (m : model)
    (hcd : m.confirmDelete = false)
    (hs : m.screen = screenPolicyAddRule ∨ m.screen = screenPolicyEditRule ∨
      m.screen = screenTrustAddGlobalRule ∨ m.screen = screenTrustEditGlobalRule) :
    (m.focusIndex < m.inputs.length - 1 →
      (update st m "enter").out.focusIndex = m.focusIndex + 1 ∧
      (update st m "enter").calls = [] ∧
      (update st m "enter").out.screen = m.screen ∧
      (update st m "enter").out.footer = m.footer ∧
      (update st m "enter").out.rules = m.rules ∧
      (update st m "enter").out.globalRules = m.globalRules) ∧
    ((update st m "enter").calls ≠ [] → ¬ m.focusIndex < m.inputs.length - 1) := by
  have hcyc1 : (cycleFocus m "tab").focusIndex = m.focusIndex + 1 ∨
      ¬ m.focusIndex < m.inputs.length - 1 := by
    by_cases hf : m.focusIndex < m.inputs.length - 1
    · left
      simp only [cycleFocus]
      have htab : ¬ (("tab" : String) = "up" ∨ ("tab" : String) = "shift+tab") := by decide
      rw [if_neg htab, if_pos hf]
    · right; exact hf
  constructor
  · intro hf
    have hidx : (cycleFocus m "tab").focusIndex = m.focusIndex + 1 := by
      rcases hcyc1 with h | h
      · exact h
      · exact absurd hf h
    have hrest : (cycleFocus m "tab").screen = m.screen ∧
        (cycleFocus m "tab").footer = m.footer ∧
        (cycleFocus m "tab").rules = m.rules ∧
        (cycleFocus m "tab").globalRules = m.globalRules := by
      simp only [cycleFocus]
      have htab : ¬ (("tab" : String) = "up" ∨ ("tab" : String) = "shift+tab") := by decide
      rw [if_neg htab, if_pos hf]
      simp
    rcases hs with h | h | h | h <;>
      simp [update, keyDispatch, handlePolicyFormSubmit, handleGlobalFormSubmit,
        hcd, h, hf, hidx, hrest.1, hrest.2.1, hrest.2.2.1, hrest.2.2.2]
  · intro hcalls
    intro hf
    apply hcalls
    rcases hs with h | h | h | h <;>
      simp [update, keyDispatch, handlePolicyFormSubmit, handleGlobalFormSubmit, hcd, h, hf]

/-- C7 witness: the theorem applied to the add-rule form with focus on the
first of three fields. -/
theorem submit_advances_focus_witness :
    (mFormStart.confirmDelete = false ∧ mFormStart.screen = screenPolicyAddRule ∧
      mFormStart.focusIndex < mFormStart.inputs.length - 1) ∧
    ((update okStore mFormStart "enter").out.focusIndex = mFormStart.focusIndex + 1 ∧
      (update okStore mFormStart "enter").calls = [] ∧
      (update okStore mFormStart "enter").out.screen = mFormStart.screen ∧
      (update okStore mFormStart "enter").out.footer = mFormStart.footer ∧
      (update okStore mFormStart "enter").out.rules = mFormStart.rules ∧
      (update okStore mFormStart "enter").out.globalRules = mFormStart.globalRules) :=
  ⟨⟨by decide, by decide, by decide⟩,
    (submit_advances_focus okStore mFormStart (by decide) (Or.inl (by decide))).1 (by decide)⟩
/-- C2 counterexample: `shift+tab` on a form screen is a focus-cycling key
that neither is `esc` nor sets a new footer, yet it erases the footer. -/
theorem footer_persistence_counterexample :
    mForm.footer = "saved" ∧ mForm.screen = screenPolicyAddRule ∧
    (update okStore mForm "shift+tab").out.footer = "" := by
  decide

/-- Corollary on the focus-cycling keys alone: on a form screen, `tab` and
`down` always leave the footer unchanged, and `up`/`shift+tab` leave it
unchanged except when the focus index is positive, in which case the
backward branch of `cycleFocus` clears the footer. -/
theorem focus_keys_footer (st : Store) (m : model) (key : String)
    (hcd : m.confirmDelete = false)
    (hs : m.screen = screenPolicyAddRule ∨ m.screen = screenPolicyEditRule ∨
      m.screen = screenTrustAddGlobalRule ∨ m.screen = screenTrustEditGlobalRule)
    (hk : key = "tab" ∨ key = "shift+tab" ∨ key = "up" ∨ key = "down") :
    (update st m key).out.footer =
      if (key = "up" ∨ key = "shift+tab") ∧ 0 < m.focusIndex then "" else m.footer := by
  rcases hs with h | h | h | h <;>
    rcases hk with hk | hk | hk | hk <;>
      subst hk <;>
        by_cases hf : 0 < m.focusIndex <;>
          by_cases hlast : m.focusIndex < m.inputs.length - 1 <;>
            simp [update, keyDispatch, cycleFocus, hcd, h, hf, hlast]

/-- The focus-key corollary applied at the concrete form state for the key
`shift+tab` with positive focus index. -/
theorem focus_keys_footer_witness :
    (mForm.confirmDelete = false ∧ mForm.screen = screenPolicyAddRule ∧
      0 < mForm.focusIndex) ∧
    (update okStore mForm "shift+tab").out.footer =
      if (("shift+tab" : String) = "up" ∨ ("shift+tab" : String) = "shift+tab") ∧
          0 < mForm.focusIndex then "" else mForm.footer :=
  ⟨⟨by decide, by decide, by decide⟩,
    focus_keys_footer okStore mForm "shift+tab" (by decide) (Or.inl (by decide))
      (Or.inr (Or.inl rfl))⟩
/-- C1 counterexample: on the two-rule state with the cursor on the second
rule and a store whose reorder persistence fails, the `u` reorder leaves
the in-memory collection swapped — not equal to the pre-reorder
collection. -/
theorem reorder_rollback_counterexample :
    (update failingStore mReorder "u").calls =
      [StoreCall.reorderRules [ruleB1, ruleR1]] ∧
    failingStore.reorderRulesRes [ruleB1, ruleR1] = some "boom" ∧
    (update failingStore mReorder "u").out.rules ≠ mReorder.rules := by
  decide

/-- C1 (amended): when the persistence call of `handleReorderUp` or
`handleReorderDown` fails, the adjacent swap is NOT rolled back: the
in-memory rules collection keeps the swapped order and only the footer
reports the error. -/
theorem reorder_no_rollback (st : Store) (m : model) (e : String) :
    (0 < m.ruleList.index →
      st.reorderRulesRes (listSwap m.rules m.ruleList.index (m.ruleList.index - 1)) = some e →
      (handleReorderUp st m).out.rules =
        listSwap m.rules m.ruleList.index (m.ruleList.index - 1) ∧
      (handleReorderUp st m).out.footer = "Error reordering rules: " ++ e) ∧
    (m.ruleList.index < m.rules.length - 1 →
      st.reorderRulesRes (listSwap m.rules m.ruleList.index (m.ruleList.index + 1)) = some e →
      (handleReorderDown st m).out.rules =
        listSwap m.rules m.ruleList.index (m.ruleList.index + 1) ∧
      (handleReorderDown st m).out.footer = "Error reordering rules: " ++ e) := by
  constructor
  · intro hi hres
    simp [handleReorderUp, hi, hres]
  · intro hi hres
    simp [handleReorderDown, hi, hres]

/-- C1 witness: the amended theorem applied at the concrete two-rule state
whose reorder persistence fails. -/
theorem reorder_no_rollback_witness :
    (0 < mReorder.ruleList.index ∧
      failingStore.reorderRulesRes
        (listSwap mReorder.rules mReorder.ruleList.index (mReorder.ruleList.index - 1)) =
        some "boom") ∧
    ((handleReorderUp failingStore mReorder).out.rules =
        listSwap mReorder.rules mReorder.ruleList.index (mReorder.ruleList.index - 1) ∧
      (handleReorderUp failingStore mReorder).out.footer =
        "Error reordering rules: " ++ "boom") :=
  ⟨⟨by decide, by decide⟩,
    (reorder_no_rollback failingStore mReorder "boom").1 (by decide) (by decide)⟩
/-- C8: starting from focus index 0, `n` forward `cycleFocus` steps land on
`n mod field_count`; a forward cycle from the last index wraps to 0, and a
backward cycle from index 0 wraps to the last index. -/
theorem cycleFocus_mod (m m2 m3 : model) (n : Nat)
    (h1 : m.inputs ≠ []) (h0 : m.focusIndex = 0) :
    (cycleForwardN n m).focusIndex = n % m.inputs.length ∧
    (m2.inputs ≠ [] → m2.focusIndex = m2.inputs.length - 1 →
      (cycleFocus m2 "tab").focusIndex = 0) ∧
    (m3.focusIndex = 0 → (cycleFocus m3 "shift+tab").focusIndex = m3.inputs.length - 1) := by
  have hlen : 0 < m.inputs.length := List.length_pos.mpr h1
  refine ⟨?_, ?_, ?_⟩
  · have := cycleForwardN_focusIndex n m hlen (by omega)
    rw [this, h0, Nat.zero_add]
  · intro h2 hlast
    have hlen2 : 0 < m2.inputs.length := List.length_pos.mpr h2
    have hno : ¬ m2.focusIndex < m2.inputs.length - 1 := by omega
    simp [cycleFocus, hno]
  · intro h3
    have hno : ¬ m3.focusIndex > 0 := by omega
    simp [cycleFocus, hno]

/-- C8 witness: five forward cycles on the three-field rule form starting
at index 0 land on `5 mod 3`; the wrap cases applied at concrete form
states. -/
theorem cycleFocus_mod_witness :
    (mFormStart.inputs ≠ [] ∧ mFormStart.focusIndex = 0 ∧
      mEmptyPrincipals.inputs ≠ [] ∧
      mEmptyPrincipals.focusIndex = mEmptyPrincipals.inputs.length - 1) ∧
    ((cycleForwardN 5 mFormStart).focusIndex = 5 % mFormStart.inputs.length ∧
      (cycleFocus mEmptyPrincipals "tab").focusIndex = 0 ∧
      (cycleFocus mFormStart "shift+tab").focusIndex = mFormStart.inputs.length - 1) := by
  have h := cycleFocus_mod mFormStart mEmptyPrincipals mFormStart 5 (by decide) (by decide)
  exact ⟨⟨by decide, by decide, by decide, by decide⟩,
    h.1, h.2.1 (by decide) (by decide), h.2.2 (by decide)⟩
/-- C9: on global-rule form submit from the last field, the threshold is
the parsed threshold field exactly when the type field equals the
threshold-type constant and 0 otherwise; a syntactically invalid threshold
parses to 0; and the submission is dispatched to the store in every
case (never aborted by a parse failure). -/
theorem globalThreshold_parse (st : Store) (m : model) (s : String)
    (hcd : m.confirmDelete = false)
    (hlast : ¬ m.focusIndex < m.inputs.length - 1) :
    (inputVal m 1 ≠ GlobalRuleThresholdType → (buildGlobalRule m).threshold = 0) ∧
    (inputVal m 1 = GlobalRuleThresholdType →
      (buildGlobalRule m).threshold = atoiVal (inputVal m 3)) ∧
    (atoiSyntaxOk s = false → atoiVal s = 0) ∧
    (m.screen = screenTrustAddGlobalRule →
      (update st m "enter").calls.head? =
        some (StoreCall.addGlobalRule (buildGlobalRule m))) ∧
    (m.screen = screenTrustEditGlobalRule →
      (update st m "enter").calls.head? =
        some (StoreCall.updateGlobalRule (buildGlobalRule m))) := by
  refine ⟨?_, ?_, ?_, ?_, ?_⟩
  · intro h; simp [buildGlobalRule, h]
  · intro h; simp [buildGlobalRule, h]
  · intro h
    have hc : atoiCore s = Option.none := by
      cases hx : atoiCore s with
      | none => rfl
      | some v => rw [atoiSyntaxOk, hx] at h; exact absurd h (by simp)
    simp [atoiVal, hc]
  · intro h
    have hu : update st m "enter" = handleGlobalFormSubmit st m := by
      simp [update, keyDispatch, hcd, h]
    rw [hu]
    cases hres : st.addGlobalRuleRes (buildGlobalRule m) with
    | none => simp [handleGlobalFormSubmit, hlast, h, hres]
    | some e => simp [handleGlobalFormSubmit, hlast, h, hres]
  · intro h
    have hu : update st m "enter" = handleGlobalFormSubmit st m := by
      simp [update, keyDispatch, hcd, h]
    rw [hu]
    cases hres : st.updateGlobalRuleRes (buildGlobalRule m) with
    | none => simp [handleGlobalFormSubmit, hlast, h, hres]
    | some e => simp [handleGlobalFormSubmit, hlast, h, hres]

/-- C9 witness: the theorem applied at the concrete add-global-rule form
with type field `threshold` and threshold field `2`; the persisted rule's
threshold is 2, and an unparsable string yields 0. -/
theorem globalThreshold_parse_witness :
    (mThresholdForm.confirmDelete = false ∧
      ¬ mThresholdForm.focusIndex < mThresholdForm.inputs.length - 1 ∧
      mThresholdForm.screen = screenTrustAddGlobalRule ∧
      inputVal mThresholdForm 1 = GlobalRuleThresholdType ∧
      inputVal mThresholdForm 3 = "2" ∧ atoiSyntaxOk "xy" = false) ∧
    (buildGlobalRule mThresholdForm).threshold = atoiVal (inputVal mThresholdForm 3) ∧
    atoiVal "xy" = 0 ∧
    (update okStore mThresholdForm "enter").calls.head? =
      some (StoreCall.addGlobalRule (buildGlobalRule mThresholdForm)) ∧
    (buildGlobalRule mThresholdForm).threshold = 2 := by
  have h := globalThreshold_parse okStore mThresholdForm "xy" (by decide) (by decide)
  exact ⟨⟨by decide, by decide, by decide, by decide, by decide, by decide⟩,
    h.2.1 (by decide), h.2.2.1 (by decide), h.2.2.2.1 (by decide), by decide⟩

/-- C10: `splitAndTrim` never returns an empty list — on the empty string
it returns `[""]` — so a form submitted with an empty principals or
namespaces field dispatches to the store with the one-element list
`[""]`. -/
theorem splitAndTrim_never_empty (st : Store) (m : model) (s : String)
    (hcd : m.confirmDelete = false)
    (hlast : ¬ m.focusIndex < m.inputs.length - 1)
    (hempty : inputVal m 2 = "") :
    splitAndTrim "" = [""] ∧
    splitAndTrim s ≠ [] ∧
    (m.screen = screenPolicyAddRule →
      (update st m "enter").calls.head? =
        some (StoreCall.addRule (buildRule m) [""])) ∧
    (m.screen = screenPolicyEditRule →
      (update st m "enter").calls.head? =
        some (StoreCall.updateRule (buildRule m) [""])) ∧
    (m.screen = screenTrustAddGlobalRule → (buildGlobalRule m).rulePatterns = [""]) ∧
    (m.screen = screenTrustEditGlobalRule → (buildGlobalRule m).rulePatterns = [""]) := by
  have hone : splitAndTrim "" = [""] := rfl
  refine ⟨hone, ?_, ?_, ?_, ?_, ?_⟩
  · intro h
    rw [splitAndTrim, List.map_eq_nil_iff] at h
    exact splitOnChar_ne_nil ',' s.toList h
  · intro h
    have hu : update st m "enter" = handlePolicyFormSubmit st m := by
      simp [update, keyDispatch, hcd, h]
    rw [hu]
    cases hres : st.addRuleRes (buildRule m) (splitAndTrim (inputVal m 2)) with
    | none => simp [handlePolicyFormSubmit, hlast, h, hempty, hone] at hres ⊢; simp [hres]
    | some e => simp [handlePolicyFormSubmit, hlast, h, hempty, hone] at hres ⊢; simp [hres]
  · intro h
    have hu : update st m "enter" = handlePolicyFormSubmit st m := by
      simp [update, keyDispatch, hcd, h]
    rw [hu]
    cases hres : st.updateRuleRes (buildRule m) (splitAndTrim (inputVal m 2)) with
    | none => simp [handlePolicyFormSubmit, hlast, h, hempty, hone] at hres ⊢; simp [hres]
    | some e => simp [handlePolicyFormSubmit, hlast, h, hempty, hone] at hres ⊢; simp [hres]
  · intro h
    simp [buildGlobalRule, hempty, hone]
  · intro h
    simp [buildGlobalRule, hempty, hone]

/-- C10 witness: the theorem applied at the add-rule form with an empty
principals field. -/
theorem splitAndTrim_never_empty_witness :
    (mEmptyPrincipals.confirmDelete = false ∧
      ¬ mEmptyPrincipals.focusIndex < mEmptyPrincipals.inputs.length - 1 ∧
      inputVal mEmptyPrincipals 2 = "" ∧
      mEmptyPrincipals.screen = screenPolicyAddRule) ∧
    splitAndTrim "" = [""] ∧
    splitAndTrim "x" ≠ [] ∧
    (update okStore mEmptyPrincipals "enter").calls.head? =
      some (StoreCall.addRule (buildRule mEmptyPrincipals) [""]) := by
  have h := splitAndTrim_never_empty okStore mEmptyPrincipals "x" (by decide) (by decide)
    (by decide)
  exact ⟨⟨by decide, by decide, by decide, by decide⟩, h.1, h.2.1, h.2.2.1 (by decide)⟩

/-- C6 counterexample: prefilling the edit form from the global rule
`grComma` (whose single namespace pattern `"a,b"` contains a comma) and
submitting with four enters and no edits dispatches an update whose
pattern list `["a", "b"]` differs from the original `["a,b"]`. -/
theorem roundTrip_counterexample :
    grComma.rulePatterns = ["a,b"] ∧
    (update okStore mGrComma3 "enter").calls =
      [StoreCall.updateGlobalRule
        { ruleName := "G1", ruleType := "block-force-pushes",
          rulePatterns := ["a", "b"], threshold := 0 },
        StoreCall.fetchGlobalRules] ∧
    (["a", "b"] : List String) ≠ grComma.rulePatterns := by
  decide
theorem natDigits_length_le (k : Nat) : ∀ n, n < 10 ^ (k + 1) → (natDigits n).length ≤ k + 1 := by
  induction k with
  | zero =>
    intro n hn
    have h10 : (10 : Nat) ^ 1 = 10 := by norm_num
    rw [h10] at hn
    rw [natDigits, dif_pos hn]
    simp
  | succ k ih =>
    intro n hn
    rw [natDigits]
    split_ifs with h
    · simp only [List.length_cons, List.length_nil]; omega
    · have h10 : (10 : Nat) ^ (k + 2) = 10 ^ (k + 1) * 10 := by ring
      rw [h10] at hn
      have hdiv : n / 10 < 10 ^ (k + 1) := (Nat.div_lt_iff_lt_mul (by omega)).mpr hn
      have := ih (n / 10) hdiv
      simp only [List.length_append, List.length_cons, List.length_nil]
      omega

theorem intRepr_length_le (i : Int) (h1 : minI64 ≤ i) (h2 : i ≤ maxI64) :
    (intRepr i).length ≤ 20 := by
  simp only [minI64, maxI64] at h1 h2
  have h3 : i.natAbs ≤ 9223372036854775808 := by omega
  have h4 : (9223372036854775808 : Nat) < 10 ^ 19 := by norm_num
  have hlen := natDigits_length_le 18 i.natAbs (by omega)
  rw [intRepr]
  split_ifs with h
  · simp only [List.length_cons]; omega
  · omega

/-- C6 (amended): prefilled-edit round trip.  For every Rule whose name,
pattern and key each fit the form fields' 64-rune CharLimit, prefilling
the edit form and submitting with three enters and no edits dispatches an
update with exactly the original rule and the principal split of its key,
then returns to the rules screen with the success footer.  For a
GlobalRule the same holds for four enters provided its name, type and
comma-joined namespaces also fit the 64-rune limit, its namespace patterns
are comma-free, trimmed (with respect to Go's Unicode whitespace) and
nonempty (the counterexample shows the claim fails otherwise), and its
threshold is within the 64-bit int range: the dispatched global rule
agrees with the original on name, type, patterns, and on threshold
whenever the type is the threshold type. -/
theorem prefilled_submit_roundTrip (st : Store) (m : model) (r : rule) (gr : globalRule)
    (hcd : m.confirmDelete = false)
    (hR : st.updateRuleRes r (splitAndTrim r.key) = Option.none)
    (hG : ∀ g, st.updateGlobalRuleRes g = Option.none)
    (hne : gr.rulePatterns ≠ [])
    (hp : ∀ p ∈ gr.rulePatterns, (∀ ch ∈ p.toList, ch ≠ ',') ∧ goTrim p.toList = p.toList)
    (hthr : minI64 ≤ gr.threshold ∧ gr.threshold ≤ maxI64)
    (hlenR : r.name.toList.length ≤ 64 ∧ r.pattern.toList.length ≤ 64 ∧
      r.key.toList.length ≤ 64)
    (hlenG : gr.ruleName.toList.length ≤ 64 ∧ gr.ruleType.toList.length ≤ 64 ∧
      (goJoin ", " gr.rulePatterns).toList.length ≤ 64) :
    ((update st (update st (update st (ruleEditStart m r) "enter").out "enter").out
        "enter").calls =
        [StoreCall.updateRule r (splitAndTrim r.key), StoreCall.fetchRules] ∧
      (update st (update st (update st (ruleEditStart m r) "enter").out "enter").out
        "enter").out.screen = screenPolicyRules ∧
      (update st (update st (update st (ruleEditStart m r) "enter").out "enter").out
        "enter").out.footer = "Rule updated successfully!") ∧
    (∃ d : globalRule,
      (update st (update st (update st (update st (globalEditStart m gr) "enter").out
          "enter").out "enter").out "enter").calls =
        [StoreCall.updateGlobalRule d, StoreCall.fetchGlobalRules] ∧
      d.ruleName = gr.ruleName ∧ d.ruleType = gr.ruleType ∧
      d.rulePatterns = gr.rulePatterns ∧
      (gr.ruleType = GlobalRuleThresholdType → d.threshold = gr.threshold) ∧
      (update st (update st (update st (update st (globalEditStart m gr) "enter").out
          "enter").out "enter").out "enter").out.screen = screenTrustGlobalRules ∧
      (update st (update st (update st (update st (globalEditStart m gr) "enter").out
          "enter").out "enter").out "enter").out.footer = "Global rule updated!") := by
  have e1 : List.take 64 r.name.data = r.name.data := List.take_of_length_le hlenR.1
  have e2 : List.take 64 r.pattern.data = r.pattern.data := List.take_of_length_le hlenR.2.1
  have e3 : List.take 64 r.key.data = r.key.data := List.take_of_length_le hlenR.2.2
  have e4 : List.take 64 gr.ruleName.data = gr.ruleName.data :=
    List.take_of_length_le hlenG.1
  have e5 : List.take 64 gr.ruleType.data = gr.ruleType.data :=
    List.take_of_length_le hlenG.2.1
  have e6 : List.take 64 (goJoin ", " gr.rulePatterns).data =
      (goJoin ", " gr.rulePatterns).data := List.take_of_length_le hlenG.2.2
  constructor
  · simp [update, keyDispatch, handlePolicyFormSubmit, cycleFocus, refocusAux,
      ruleEditStart, initRuleInputsPrefilled, initRuleInputs, initInputs, initInputsAux,
      setInputValue, tiSetValue, tiFocus, tiBlur, buildRule, inputVal,
      refreshRules, updateRuleList, hcd, hR, e1, e2, e3]
  · have hsp := splitAndTrim_goJoin gr.rulePatterns hne hp
    by_cases hty : gr.ruleType = GlobalRuleThresholdType
    · have hav := atoiVal_intReprStr gr.threshold hthr.1 hthr.2
      have hav2 : atoiVal (String.mk (intRepr gr.threshold)) = gr.threshold := hav
      have e7 : List.take 64 (intRepr gr.threshold) = intRepr gr.threshold :=
        List.take_of_length_le (le_trans (intRepr_length_le gr.threshold hthr.1 hthr.2)
          (by omega))
      have e8 : List.take 64 GlobalRuleThresholdType.data = GlobalRuleThresholdType.data :=
        rfl
      have hrepr : (intReprStr gr.threshold).data = intRepr gr.threshold := rfl
      refine ⟨⟨gr.ruleName, gr.ruleType, gr.rulePatterns, gr.threshold⟩, ?_⟩
      simp [update, keyDispatch, handleGlobalFormSubmit, cycleFocus, refocusAux,
        globalEditStart, initGlobalRuleInputsPrefilled, initGlobalRuleInputs, initInputs,
        initInputsAux, setInputValue, tiSetValue, tiFocus, tiBlur, buildGlobalRule, inputVal,
        refreshGlobalRules, updateGlobalRuleList, hcd, hG, hty, hsp, hav2,
        e4, e5, e6, e7, e8, hrepr]
    · refine ⟨⟨gr.ruleName, gr.ruleType, gr.rulePatterns, 0⟩, ?_⟩
      simp [update, keyDispatch, handleGlobalFormSubmit, cycleFocus, refocusAux,
        globalEditStart, initGlobalRuleInputsPrefilled, initGlobalRuleInputs, initInputs,
        initInputsAux, setInputValue, tiSetValue, tiFocus, tiBlur, buildGlobalRule, inputVal,
        refreshGlobalRules, updateGlobalRuleList, hcd, hG, hty, hsp, e4, e5, e6]

/-- C6 witness: the amended theorem applied to the §8 scenario rule
`{R1, refs/heads/main, alice}` (whose key splits to the principal set
`["alice"]`) and to a well-formed global rule of threshold type 2. -/
theorem prefilled_submit_roundTrip_witness :
    (({} : model).confirmDelete = false ∧
      okStore.updateRuleRes ruleR1 (splitAndTrim ruleR1.key) = Option.none ∧
      grGood.rulePatterns ≠ [] ∧
      (∀ p ∈ grGood.rulePatterns,
        (∀ ch ∈ p.toList, ch ≠ ',') ∧ goTrim p.toList = p.toList) ∧
      minI64 ≤ grGood.threshold ∧ grGood.threshold ≤ maxI64 ∧
      ruleR1.name.toList.length ≤ 64 ∧ ruleR1.pattern.toList.length ≤ 64 ∧
      ruleR1.key.toList.length ≤ 64 ∧
      grGood.ruleName.toList.length ≤ 64 ∧ grGood.ruleType.toList.length ≤ 64 ∧
      (goJoin ", " grGood.rulePatterns).toList.length ≤ 64) ∧
    splitAndTrim ruleR1.key = ["alice"] ∧
    ((update okStore (update okStore (update okStore (ruleEditStart {} ruleR1) "enter").out
        "enter").out "enter").calls =
      [StoreCall.updateRule ruleR1 (splitAndTrim ruleR1.key), StoreCall.fetchRules] ∧
      (update okStore (update okStore (update okStore (ruleEditStart {} ruleR1) "enter").out
        "enter").out "enter").out.screen = screenPolicyRules ∧
      (update okStore (update okStore (update okStore (ruleEditStart {} ruleR1) "enter").out
        "enter").out "enter").out.footer = "Rule updated successfully!") ∧
    (∃ d : globalRule,
      (update okStore (update okStore (update okStore (update okStore
          (globalEditStart {} grGood) "enter").out "enter").out "enter").out "enter").calls =
        [StoreCall.updateGlobalRule d, StoreCall.fetchGlobalRules] ∧
      d.ruleName = grGood.ruleName ∧ d.ruleType = grGood.ruleType ∧
      d.rulePatterns = grGood.rulePatterns ∧
      (grGood.ruleType = GlobalRuleThresholdType → d.threshold = grGood.threshold) ∧
      (update okStore (update okStore (update okStore (update okStore
          (globalEditStart {} grGood) "enter").out "enter").out "enter").out
        "enter").out.screen = screenTrustGlobalRules ∧
      (update okStore (update okStore (update okStore (update okStore
          (globalEditStart {} grGood) "enter").out "enter").out "enter").out
        "enter").out.footer = "Global rule updated!") := by
  have h := prefilled_submit_roundTrip okStore {} ruleR1 grGood (by decide) (by decide)
    (fun _ => rfl) (by decide) (by decide) (by decide) (by decide) (by decide)
  exact ⟨⟨by decide, by decide, by decide, by decide, by decide, by decide, by decide,
    by decide, by decide, by decide, by decide, by decide⟩, by decide, h.1, h.2⟩
theorem cycleFocus_footer (m : model) (key : String) :
    (cycleFocus m key).footer =
      if (key = "up" ∨ key = "shift+tab") ∧ 0 < m.focusIndex then "" else m.footer := by
  by_cases h1 : key = "up" ∨ key = "shift+tab" <;>
    by_cases h2 : 0 < m.focusIndex <;>
      by_cases h3 : m.focusIndex < m.inputs.length - 1 <;>
        simp [cycleFocus, h1, h2, h3]

theorem keyDispatch_footer_cases (st : Store) (m : model) (key : String)
    (hcd : m.confirmDelete = false) :
    (keyDispatch st m key).out.footer = m.footer ∨
    (∃ c ∈ (keyDispatch st m key).calls, isMutatingCall c = true) ∨
    ((key = "up" ∨ key = "shift+tab") ∧ m.confirmDelete = false ∧
      (m.screen = screenPolicyAddRule ∨ m.screen = screenPolicyEditRule ∨
        m.screen = screenTrustAddGlobalRule ∨ m.screen = screenTrustEditGlobalRule) ∧
      0 < m.focusIndex ∧ (keyDispatch st m key).out.footer = "") := by
  cases hs : m.screen with
  | screenChoice =>
    by_cases he : key = "enter"
    · left
      have hk : keyDispatch st m key = handleEnter st m := by simp [keyDispatch, hs, he]
      rw [hk]
      cases hsel : selectedItem m.choiceList with
      | none => simp [handleEnter, hs, hsel]
      | some i =>
        by_cases h1 : i.title = "Policy" <;> by_cases h2 : i.title = "Trust" <;>
          simp [handleEnter, hs, hsel, h1, h2]
    · left
      have hk : keyDispatch st m key = delegate m key := by simp [keyDispatch, hs, he]
      rw [hk]; simp [delegate, hs]
  | screenPolicy =>
    by_cases he : key = "enter"
    · left
      have hk : keyDispatch st m key = handleEnter st m := by simp [keyDispatch, hs, he]
      rw [hk]
      cases hsel : selectedItem m.policyScreenList with
      | none => simp [handleEnter, hs, hsel]
      | some i => simp [handleEnter, hs, hsel, refreshRules, updateRuleList, setItems]
    · left
      have hk : keyDispatch st m key = delegate m key := by simp [keyDispatch, hs, he]
      rw [hk]; simp [delegate, hs]
  | screenTrust =>
    by_cases he : key = "enter"
    · left
      have hk : keyDispatch st m key = handleEnter st m := by simp [keyDispatch, hs, he]
      rw [hk]
      cases hsel : selectedItem m.trustScreenList with
      | none => simp [handleEnter, hs, hsel]
      | some i =>
        simp [handleEnter, hs, hsel, refreshGlobalRules, updateGlobalRuleList, setItems]
    · left
      have hk : keyDispatch st m key = delegate m key := by simp [keyDispatch, hs, he]
      rw [hk]; simp [delegate, hs]
  | screenPolicyRules =>
    have hk : keyDispatch st m key = handleRulesListKey st m key := by
      simp [keyDispatch, hs]
    rw [hk]
    cases hro : m.readOnly with
    | true => left; simp [handleRulesListKey, hro, hs]
    | false =>
      by_cases ha : key = "a"
      · left; simp [handleRulesListKey, hro, hs, ha, initRuleInputs, initInputs]
      · by_cases he2 : key = "e"
        · left
          cases hsel : selectedItem m.ruleList with
          | none => simp [handleRulesListKey, hro, hs, ha, he2, hsel]
          | some sel =>
            cases hfind : m.rules.find? (fun r => r.name = sel.title) with
            | none => simp [handleRulesListKey, hro, hs, ha, he2, hsel, hfind]
            | some r =>
              simp [handleRulesListKey, hro, hs, ha, he2, hsel, hfind,
                initRuleInputsPrefilled, initRuleInputs, initInputs]
        · by_cases hd : key = "d"
          · left
            cases hsel : selectedItem m.ruleList with
            | none => simp [handleRulesListKey, hro, hs, ha, he2, hd, hsel]
            | some sel => simp [handleRulesListKey, hro, hs, ha, he2, hd, hsel]
          · by_cases hu2 : key = "u" ∨ key = "k"
            · by_cases hi : m.ruleList.index > 0
              · right; left
                cases hres : st.reorderRulesRes
                    (listSwap m.rules m.ruleList.index (m.ruleList.index - 1)) with
                | none =>
                  exact ⟨StoreCall.reorderRules
                      (listSwap m.rules m.ruleList.index (m.ruleList.index - 1)),
                    by simp [handleRulesListKey, hro, hs, ha, he2, hd, hu2,
                      handleReorderUp, hi, hres], rfl⟩
                | some e =>
                  exact ⟨StoreCall.reorderRules
                      (listSwap m.rules m.ruleList.index (m.ruleList.index - 1)),
                    by simp [handleRulesListKey, hro, hs, ha, he2, hd, hu2,
                      handleReorderUp, hi, hres], rfl⟩
              · left
                simp [handleRulesListKey, hro, hs, ha, he2, hd, hu2, handleReorderUp, hi]
            · by_cases hj : key = "j"
              · by_cases hi : m.ruleList.index < m.rules.length - 1
                · right; left
                  cases hres : st.reorderRulesRes
                      (listSwap m.rules m.ruleList.index (m.ruleList.index + 1)) with
                  | none =>
                    exact ⟨StoreCall.reorderRules
                        (listSwap m.rules m.ruleList.index (m.ruleList.index + 1)),
                      by simp [handleRulesListKey, hro, hs, ha, he2, hd, hu2, hj,
                        handleReorderDown, hi, hres], rfl⟩
                  | some e =>
                    exact ⟨StoreCall.reorderRules
                        (listSwap m.rules m.ruleList.index (m.ruleList.index + 1)),
                      by simp [handleRulesListKey, hro, hs, ha, he2, hd, hu2, hj,
                        handleReorderDown, hi, hres], rfl⟩
                · left
                  simp [handleRulesListKey, hro, hs, ha, he2, hd, hu2, hj,
                    handleReorderDown, hi]
              · left; simp [handleRulesListKey, hro, hs, ha, he2, hd, hu2, hj]
  | screenTrustGlobalRules =>
    have hk : keyDispatch st m key = handleRulesListKey st m key := by
      simp [keyDispatch, hs]
    rw [hk]
    cases hro : m.readOnly with
    | true => left; simp [handleRulesListKey, hro, hs]
    | false =>
      by_cases ha : key = "a"
      · left; simp [handleRulesListKey, hro, hs, ha, initGlobalRuleInputs, initInputs]
      · by_cases he2 : key = "e"
        · left
          cases hsel : selectedItem m.globalRuleList with
          | none => simp [handleRulesListKey, hro, hs, ha, he2, hsel]
          | some sel =>
            cases hfind : m.globalRules.find? (fun gr => gr.ruleName = sel.title) with
            | none => simp [handleRulesListKey, hro, hs, ha, he2, hsel, hfind]
            | some gr =>
              simp [handleRulesListKey, hro, hs, ha, he2, hsel, hfind,
                initGlobalRuleInputsPrefilled, initGlobalRuleInputs, initInputs,
                setInputValue, tiSetValue]
        · by_cases hd : key = "d"
          · left
            cases hsel : selectedItem m.globalRuleList with
            | none => simp [handleRulesListKey, hro, hs, ha, he2, hd, hsel]
            | some sel => simp [handleRulesListKey, hro, hs, ha, he2, hd, hsel]
          · by_cases hu2 : key = "u" ∨ key = "k"
            · left; simp [handleRulesListKey, hro, hs, ha, he2, hd, hu2]
            · by_cases hj : key = "j"
              · left; simp [handleRulesListKey, hro, hs, ha, he2, hd, hu2, hj]
              · left; simp [handleRulesListKey, hro, hs, ha, he2, hd, hu2, hj]
  | screenPolicyAddRule =>
    by_cases he : key = "enter"
    · by_cases hlast : m.focusIndex < m.inputs.length - 1
      · left
        simp [keyDispatch, hs, he, handlePolicyFormSubmit, hlast, cycleFocus_footer]
      · right; left
        cases hres : st.addRuleRes (buildRule m) (splitAndTrim (inputVal m 2)) with
        | none =>
          exact ⟨StoreCall.addRule (buildRule m) (splitAndTrim (inputVal m 2)),
            by simp [keyDispatch, hs, he, handlePolicyFormSubmit, hlast, hres], rfl⟩
        | some e =>
          exact ⟨StoreCall.addRule (buildRule m) (splitAndTrim (inputVal m 2)),
            by simp [keyDispatch, hs, he, handlePolicyFormSubmit, hlast, hres], rfl⟩
    · by_cases hfk : key = "tab" ∨ key = "shift+tab" ∨ key = "up" ∨ key = "down"
      · by_cases hb : (key = "up" ∨ key = "shift+tab") ∧ 0 < m.focusIndex
        · right; right
          refine ⟨hb.1, hcd, by simp [hs], hb.2, ?_⟩
          simp [keyDispatch, hs, he, hfk, cycleFocus_footer, hb]
        · left
          simp [keyDispatch, hs, he, hfk, cycleFocus_footer, hb]
      · left; simp [keyDispatch, hs, he, hfk, delegate]
  | screenPolicyEditRule =>
    by_cases he : key = "enter"
    · by_cases hlast : m.focusIndex < m.inputs.length - 1
      · left
        simp [keyDispatch, hs, he, handlePolicyFormSubmit, hlast, cycleFocus_footer]
      · right; left
        cases hres : st.updateRuleRes (buildRule m) (splitAndTrim (inputVal m 2)) with
        | none =>
          exact ⟨StoreCall.updateRule (buildRule m) (splitAndTrim (inputVal m 2)),
            by simp [keyDispatch, hs, he, handlePolicyFormSubmit, hlast, hres], rfl⟩
        | some e =>
          exact ⟨StoreCall.updateRule (buildRule m) (splitAndTrim (inputVal m 2)),
            by simp [keyDispatch, hs, he, handlePolicyFormSubmit, hlast, hres], rfl⟩
    · by_cases hfk : key = "tab" ∨ key = "shift+tab" ∨ key = "up" ∨ key = "down"
      · by_cases hb : (key = "up" ∨ key = "shift+tab") ∧ 0 < m.focusIndex
        · right; right
          refine ⟨hb.1, hcd, by simp [hs], hb.2, ?_⟩
          simp [keyDispatch, hs, he, hfk, cycleFocus_footer, hb]
        · left
          simp [keyDispatch, hs, he, hfk, cycleFocus_footer, hb]
      · left; simp [keyDispatch, hs, he, hfk, delegate]
  | screenTrustAddGlobalRule =>
    by_cases he : key = "enter"
    · by_cases hlast : m.focusIndex < m.inputs.length - 1
      · left
        simp [keyDispatch, hs, he, handleGlobalFormSubmit, hlast, cycleFocus_footer]
      · right; left
        cases hres : st.addGlobalRuleRes (buildGlobalRule m) with
        | none =>
          exact ⟨StoreCall.addGlobalRule (buildGlobalRule m),
            by simp [keyDispatch, hs, he, handleGlobalFormSubmit, hlast, hres], rfl⟩
        | some e =>
          exact ⟨StoreCall.addGlobalRule (buildGlobalRule m),
            by simp [keyDispatch, hs, he, handleGlobalFormSubmit, hlast, hres], rfl⟩
    · by_cases hfk : key = "tab" ∨ key = "shift+tab" ∨ key = "up" ∨ key = "down"
      · by_cases hb : (key = "up" ∨ key = "shift+tab") ∧ 0 < m.focusIndex
        · right; right
          refine ⟨hb.1, hcd, by simp [hs], hb.2, ?_⟩
          simp [keyDispatch, hs, he, hfk, cycleFocus_footer, hb]
        · left
          simp [keyDispatch, hs, he, hfk, cycleFocus_footer, hb]
      · left; simp [keyDispatch, hs, he, hfk, delegate]
  | screenTrustEditGlobalRule =>
    by_cases he : key = "enter"
    · by_cases hlast : m.focusIndex < m.inputs.length - 1
      · left
        simp [keyDispatch, hs, he, handleGlobalFormSubmit, hlast, cycleFocus_footer]
      · right; left
        cases hres : st.updateGlobalRuleRes (buildGlobalRule m) with
        | none =>
          exact ⟨StoreCall.updateGlobalRule (buildGlobalRule m),
            by simp [keyDispatch, hs, he, handleGlobalFormSubmit, hlast, hres], rfl⟩
        | some e =>
          exact ⟨StoreCall.updateGlobalRule (buildGlobalRule m),
            by simp [keyDispatch, hs, he, handleGlobalFormSubmit, hlast, hres], rfl⟩
    · by_cases hfk : key = "tab" ∨ key = "shift+tab" ∨ key = "up" ∨ key = "down"
      · by_cases hb : (key = "up" ∨ key = "shift+tab") ∧ 0 < m.focusIndex
        · right; right
          refine ⟨hb.1, hcd, by simp [hs], hb.2, ?_⟩
          simp [keyDispatch, hs, he, hfk, cycleFocus_footer, hb]
        · left
          simp [keyDispatch, hs, he, hfk, cycleFocus_footer, hb]
      · left; simp [keyDispatch, hs, he, hfk, delegate]
theorem footer_change_cases (st : Store) (m : model) (key : String) :
    (update st m key).out.footer = m.footer ∨
    key = "esc" ∨
    (∃ c ∈ (update st m key).calls, isMutatingCall c = true) ∨
    ((key = "up" ∨ key = "shift+tab") ∧ m.confirmDelete = false ∧
      (m.screen = screenPolicyAddRule ∨ m.screen = screenPolicyEditRule ∨
        m.screen = screenTrustAddGlobalRule ∨ m.screen = screenTrustEditGlobalRule) ∧
      0 < m.focusIndex ∧ (update st m key).out.footer = "") := by
  cases hcd : m.confirmDelete with
  | true =>
    have hu : update st m key = handleDeleteConfirm st m key := by simp [update, hcd]
    rw [hu]
    by_cases hk : key = "y"
    · cases hs : m.screen with
      | screenPolicyRules =>
        right; right; left
        cases hrem : st.removeRuleRes { name := m.deleteTarget } with
        | none =>
          exact ⟨StoreCall.removeRule { name := m.deleteTarget },
            by simp [handleDeleteConfirm, hk, hs, hrem], rfl⟩
        | some e =>
          exact ⟨StoreCall.removeRule { name := m.deleteTarget },
            by simp [handleDeleteConfirm, hk, hs, hrem], rfl⟩
      | screenTrustGlobalRules =>
        right; right; left
        cases hrem : st.removeGlobalRuleRes { ruleName := m.deleteTarget } with
        | none =>
          exact ⟨StoreCall.removeGlobalRule { ruleName := m.deleteTarget },
            by simp [handleDeleteConfirm, hk, hs, hrem], rfl⟩
        | some e =>
          exact ⟨StoreCall.removeGlobalRule { ruleName := m.deleteTarget },
            by simp [handleDeleteConfirm, hk, hs, hrem], rfl⟩
      | screenChoice => left; simp [handleDeleteConfirm, hk, hs]
      | screenPolicy => left; simp [handleDeleteConfirm, hk, hs]
      | screenPolicyAddRule => left; simp [handleDeleteConfirm, hk, hs]
      | screenPolicyEditRule => left; simp [handleDeleteConfirm, hk, hs]
      | screenTrust => left; simp [handleDeleteConfirm, hk, hs]
      | screenTrustAddGlobalRule => left; simp [handleDeleteConfirm, hk, hs]
      | screenTrustEditGlobalRule => left; simp [handleDeleteConfirm, hk, hs]
    · left; simp [handleDeleteConfirm, hk]
  | false =>
    by_cases hc : key = "ctrl+c"
    · left; simp [update, hcd, hc]
    · by_cases hescK : key = "esc"
      · right; left; exact hescK
      · by_cases hq : key = "q" ∧ m.screen ≠ screenPolicyAddRule ∧
            m.screen ≠ screenPolicyEditRule ∧ m.screen ≠ screenTrustAddGlobalRule ∧
            m.screen ≠ screenTrustEditGlobalRule
        · left
          have hu2 : update st m key = ⟨m, Cmd.quit, []⟩ := by
            simp only [update]
            rw [if_neg (by simp [hcd]), if_neg hc, if_pos hq]
          rw [hu2]
        · have hu2 : update st m key = keyDispatch st m key := by
            simp only [update]
            rw [if_neg (by simp [hcd]), if_neg hc, if_neg hq, if_neg hescK]
          rw [hu2]
          rcases keyDispatch_footer_cases st m key hcd with h | h | h
          · left; exact h
          · right; right; left; exact h
          · right; right; right; exact ⟨h.1, rfl, h.2.2⟩

/-- C2 (amended): footer persistence for every state and every key event.
A key press that is not `esc`, performs no mutating store call (the
CRUD/reorder outcomes that overwrite the footer are exactly the
transitions dispatching such a call), and is not a backward focus-cycle
(`up`/`shift+tab`) from a positive focus index on a form screen with the
overlay inactive, leaves the footer unchanged — that last case is the one
exception the code adds to the spec's rule: `cycleFocus` clears the
footer in its backward-from-nonzero branch. -/
theorem footer_persistence (st : Store) (m : model) (key : String)
    (hesc : key ≠ "esc")
    (hmut : ∀ c ∈ (update st m key).calls, isMutatingCall c = false)
    (hback : ¬((key = "up" ∨ key = "shift+tab") ∧ m.confirmDelete = false ∧
      (m.screen = screenPolicyAddRule ∨ m.screen = screenPolicyEditRule ∨
        m.screen = screenTrustAddGlobalRule ∨ m.screen = screenTrustEditGlobalRule) ∧
      0 < m.focusIndex)) :
    (update st m key).out.footer = m.footer := by
  rcases footer_change_cases st m key with h | h | h | h
  · exact h
  · exact absurd h hesc
  · rcases h with ⟨c, hcmem, hcmut⟩
    rw [hmut c hcmem] at hcmut
    exact absurd hcmut (by simp)
  · exact absurd ⟨h.1, h.2.1, h.2.2.1, h.2.2.2.1⟩ hback

/-- C2 witness: the amended theorem applied at the form state `mForm`
(footer `"saved"`) for the character key `x`, at the rules list state
`mReorder` for the navigation key `down`, and at the overlay state
`mOverlay` for the cancelling key `n`. -/
theorem footer_persistence_witness :
    (("x" : String) ≠ "esc" ∧
      (∀ c ∈ (update okStore mForm "x").calls, isMutatingCall c = false) ∧
      (∀ c ∈ (update okStore mReorder "down").calls, isMutatingCall c = false) ∧
      (∀ c ∈ (update okStore mOverlay "n").calls, isMutatingCall c = false)) ∧
    (update okStore mForm "x").out.footer = mForm.footer ∧
    (update okStore mReorder "down").out.footer = mReorder.footer ∧
    (update okStore mOverlay "n").out.footer = mOverlay.footer := by
  refine ⟨⟨by decide, by decide, by decide, by decide⟩, ?_, ?_, ?_⟩
  · exact footer_persistence okStore mForm "x" (by decide) (by decide) (by decide)
  · exact footer_persistence okStore mReorder "down" (by decide) (by decide) (by decide)
  · exact footer_persistence okStore mOverlay "n" (by decide) (by decide) (by decide)
